import Mathlib

/-!
Verification of the adaptive hybrid set from `task 7/main.cpp`.

The C++ code defines two concrete backends, `VectorSetImpl` (a
`std::vector<int>` kept duplicate-free by a linear scan on insert) and
`HashSetImpl` (a `std::unordered_set<int>`), both behind the abstract
interface `SetImpl`, and a wrapper class `Set` that owns one backend and
migrates between them around a threshold of 20 on `add`/`remove`.

The embedding below models both backends by the list of stored elements
(for the hash table, the list records the distinct elements in one fixed
iteration order; no claim depends on hash iteration order), the abstract
interface by a sum type, and each C++ method body by a Lean function that
follows the source statement by statement.
-/

namespace Task7

/-- Shared shape of insert-if-absent on a backing list: used by
`VectorSetImpl.add` (find-then-push_back) and `HashSetImpl.add`
(`unordered_set::insert`, which inserts only when absent). -/
def listAdd (d : List Int) (v : Int) : List Int :=
  if v ∈ d then d else d ++ [v]

/-- `class VectorSetImpl`: backing storage `std::vector<int> data`. -/
structure VectorSetImpl where
  data : List Int
deriving DecidableEq

/-- `VectorSetImpl::add`: linear scan with `std::find`; push_back only when
the value is absent. -/
def VectorSetImpl.add (s : VectorSetImpl) (v : Int) : VectorSetImpl :=
  ⟨listAdd s.data v⟩

/-- `VectorSetImpl::remove`: erase-remove idiom, deletes every occurrence
of the value. -/
def VectorSetImpl.remove (s : VectorSetImpl) (v : Int) : VectorSetImpl :=
  ⟨s.data.filter (fun x => decide (x ≠ v))⟩

/-- `VectorSetImpl::contains`: linear scan with `std::find`. -/
def VectorSetImpl.contains (s : VectorSetImpl) (v : Int) : Bool :=
  decide (v ∈ s.data)

/-- `VectorSetImpl::size`. -/
def VectorSetImpl.size (s : VectorSetImpl) : Nat :=
  s.data.length

/-- `VectorSetImpl::clone`: copies the backing vector. -/
def VectorSetImpl.clone (s : VectorSetImpl) : VectorSetImpl :=
  ⟨s.data⟩

/-- `VectorSetImpl::get_elements`: returns the backing vector. -/
def VectorSetImpl.get_elements (s : VectorSetImpl) : List Int :=
  s.data

/-- `class HashSetImpl`: backing storage `std::unordered_set<int> data`;
modelled by its element list in one fixed iteration order. -/
structure HashSetImpl where
  data : List Int
deriving DecidableEq

/-- `HashSetImpl::add`: `data.insert(value)`, a no-op when present. -/
def HashSetImpl.add (s : HashSetImpl) (v : Int) : HashSetImpl :=
  ⟨listAdd s.data v⟩

/-- `HashSetImpl::remove`: `data.erase(value)`, deletes the (unique)
occurrence of the value. -/
def HashSetImpl.remove (s : HashSetImpl) (v : Int) : HashSetImpl :=
  ⟨s.data.filter (fun x => decide (x ≠ v))⟩

/-- `HashSetImpl::contains`: `data.count(value)`. -/
def HashSetImpl.contains (s : HashSetImpl) (v : Int) : Bool :=
  decide (v ∈ s.data)

/-- `HashSetImpl::size`. -/
def HashSetImpl.size (s : HashSetImpl) : Nat :=
  s.data.length

/-- `HashSetImpl::clone`: copies the backing hash set. -/
def HashSetImpl.clone (s : HashSetImpl) : HashSetImpl :=
  ⟨s.data⟩

/-- `HashSetImpl::get_elements`: copies the hash set into a vector, in
the table's iteration order. -/
def HashSetImpl.get_elements (s : HashSetImpl) : List Int :=
  s.data

/-- The abstract interface `SetImpl`: at runtime an owned backend is one
of the two concrete classes (the C++ code inspects which one with
`dynamic_cast`), so the embedding is the sum of the two. -/
inductive SetImpl where
  | vec (s : VectorSetImpl)
  | hash (s : HashSetImpl)
deriving DecidableEq

/-- Virtual dispatch of `add`. -/
def SetImpl.add : SetImpl → Int → SetImpl
  | .vec s, v => .vec (s.add v)
  | .hash s, v => .hash (s.add v)

/-- Virtual dispatch of `remove`. -/
def SetImpl.remove : SetImpl → Int → SetImpl
  | .vec s, v => .vec (s.remove v)
  | .hash s, v => .hash (s.remove v)

/-- Virtual dispatch of `contains`. -/
def SetImpl.contains : SetImpl → Int → Bool
  | .vec s, v => s.contains v
  | .hash s, v => s.contains v

/-- Virtual dispatch of `size`. -/
def SetImpl.size : SetImpl → Nat
  | .vec s => s.size
  | .hash s => s.size

/-- Virtual dispatch of `clone`. -/
def SetImpl.clone : SetImpl → SetImpl
  | .vec s => .vec s.clone
  | .hash s => .hash s.clone

/-- Virtual dispatch of `get_elements`. -/
def SetImpl.get_elements : SetImpl → List Int
  | .vec s => s.get_elements
  | .hash s => s.get_elements

/-- `dynamic_cast<VectorSetImpl*>(impl.get())` succeeds. -/
def SetImpl.isVec : SetImpl → Bool
  | .vec _ => true
  | .hash _ => false

/-- `dynamic_cast<HashSetImpl*>(impl.get())` succeeds. -/
def SetImpl.isHash : SetImpl → Bool
  | .vec _ => false
  | .hash _ => true

/-- `VectorSetImpl::union_with`: result starts as a copy of `this->data`;
each element of `other.get_elements()` is pushed back when
`this->contains` rejects it. -/
def VectorSetImpl.union_with (s : VectorSetImpl) (other : SetImpl) : VectorSetImpl :=
  ⟨s.data ++ other.get_elements.filter (fun v => !(s.contains v))⟩

/-- `VectorSetImpl::intersection_with`: pushes each element of
`this->data` that `other.contains` accepts. -/
def VectorSetImpl.intersection_with (s : VectorSetImpl) (other : SetImpl) : VectorSetImpl :=
  ⟨s.data.filter (fun v => other.contains v)⟩

/-- `HashSetImpl::union_with`: result starts as a copy of `this->data`;
each element of `other.get_elements()` is inserted. -/
def HashSetImpl.union_with (s : HashSetImpl) (other : SetImpl) : HashSetImpl :=
  other.get_elements.foldl HashSetImpl.add s

/-- `HashSetImpl::intersection_with`: inserts each element of
`this->data` that `other.contains` accepts into an empty result. -/
def HashSetImpl.intersection_with (s : HashSetImpl) (other : SetImpl) : HashSetImpl :=
  s.data.foldl (fun acc v => if other.contains v then acc.add v else acc) ⟨[]⟩

/-- Virtual dispatch of `union_with`: the result has the dynamic type of
the left operand. -/
def SetImpl.union_with : SetImpl → SetImpl → SetImpl
  | .vec s, other => .vec (s.union_with other)
  | .hash s, other => .hash (s.union_with other)

/-- Virtual dispatch of `intersection_with`: the result has the dynamic
type of the left operand. -/
def SetImpl.intersection_with : SetImpl → SetImpl → SetImpl
  | .vec s, other => .vec (s.intersection_with other)
  | .hash s, other => .hash (s.intersection_with other)

/-- `Set::SWITCH_THRESHOLD = 20`. -/
def SWITCH_THRESHOLD : Nat := 20

/-- `class Set`: owns exactly one backend through `unique_ptr<SetImpl>`. -/
structure Set where
  impl : SetImpl
deriving DecidableEq

/-- `Set::Set()`: starts with an empty `VectorSetImpl`. -/
def Set.new : Set :=
  ⟨.vec ⟨[]⟩⟩

/-- `Set::switch_to_hash`: reads `impl->get_elements()`, replaces `impl`
with an empty `HashSetImpl`, then `add`s each saved element. -/
def Set.switch_to_hash (s : Set) : Set :=
  ⟨.hash (s.impl.get_elements.foldl HashSetImpl.add ⟨[]⟩)⟩

/-- `Set::switch_to_vector`: reads `impl->get_elements()`, replaces
`impl` with an empty `VectorSetImpl`, then `add`s each saved element. -/
def Set.switch_to_vector (s : Set) : Set :=
  ⟨.vec (s.impl.get_elements.foldl VectorSetImpl.add ⟨[]⟩)⟩

/-- `Set::add`: if the current size is already at or above the threshold
and the backend is the vector one, migrate to the hash backend first;
then add into the (possibly new) backend. -/
def Set.add (s : Set) (v : Int) : Set :=
  let t := if SWITCH_THRESHOLD ≤ s.impl.size ∧ s.impl.isVec = true
    then s.switch_to_hash else s
  ⟨t.impl.add v⟩

/-- `Set::remove`: remove from the current backend first; then if the
backend is the hash one and the new size is at or below the threshold,
migrate to the vector backend. -/
def Set.remove (s : Set) (v : Int) : Set :=
  let t : Set := ⟨s.impl.remove v⟩
  if t.impl.size ≤ SWITCH_THRESHOLD ∧ t.impl.isHash = true
    then t.switch_to_vector else t

/-- `Set::contains`: delegates to the backend. -/
def Set.contains (s : Set) (v : Int) : Bool :=
  s.impl.contains v

/-- `Set::size`: delegates to the backend. -/
def Set.size (s : Set) : Nat :=
  s.impl.size

/-- `Set::union_with`: builds the backend union and wraps it in a fresh
`Set`; no switching policy is evaluated on the result. -/
def Set.union_with (a b : Set) : Set :=
  ⟨a.impl.union_with b.impl⟩

/-- `Set::intersection_with`: builds the backend intersection and wraps
it in a fresh `Set`; no switching policy is evaluated on the result. -/
def Set.intersection_with (a b : Set) : Set :=
  ⟨a.impl.intersection_with b.impl⟩

/-- `Set::union_with` is declared `const` and takes `other` by const
reference: the call returns the fresh result and leaves both operand
objects in their pre-call states. -/
def Set.union_call (a b : Set) : Set × Set × Set :=
  (a.union_with b, a, b)

/-- `Set::intersection_with` is declared `const` and takes `other` by
const reference: the call returns the fresh result and leaves both
operand objects in their pre-call states. -/
def Set.intersection_call (a b : Set) : Set × Set × Set :=
  (a.intersection_with b, a, b)

/-- One mutating operation of the public `Set` API. -/
inductive Op where
  | add (v : Int)
  | remove (v : Int)
deriving DecidableEq

/-- Apply one operation to a `Set`. -/
def Set.step (s : Set) : Op → Set
  | .add v => s.add v
  | .remove v => s.remove v

/-- Apply a sequence of operations to a `Set`. -/
def Set.run (s : Set) (ops : List Op) : Set :=
  ops.foldl Set.step s

/-- Reference model: one operation on a mathematical finite set. -/
def modelStep (m : Finset Int) : Op → Finset Int
  | .add v => insert v m
  | .remove v => m.erase v

/-- Reference model: a sequence of operations on a mathematical set. -/
def modelRun (m : Finset Int) (ops : List Op) : Finset Int :=
  ops.foldl modelStep m

/-- The element set held by a backend. -/
def SetImpl.elemsF (si : SetImpl) : Finset Int :=
  si.get_elements.toFinset

/-- Representation invariant of both backends: the stored collection
holds no duplicates. -/
def SetImpl.Inv (si : SetImpl) : Prop :=
  si.get_elements.Nodup

/-- The element set held by a `Set`. -/
def Set.elemsF (s : Set) : Finset Int :=
  s.impl.elemsF

/-- Representation invariant of a `Set`. -/
def Set.Inv (s : Set) : Prop :=
  s.impl.Inv

/-- List of the integers `0, 1, ..., n-1`. -/
def intRange (n : Nat) : List Int :=
  (List.range n).map (fun k => (k : Int))

/-- Add a list of values one at a time through the public API. -/
def Set.addAll (s : Set) (l : List Int) : Set :=
  l.foldl Set.add s

/-! ### Basic lemmas about the shared insert-if-absent shape -/

lemma mem_listAdd {d : List Int} {v x : Int} :
    x ∈ listAdd d v ↔ x ∈ d ∨ x = v := by
  unfold listAdd
  by_cases h : v ∈ d
  · rw [if_pos h]
    constructor
    · exact Or.inl
    · rintro (hx | rfl)
      · exact hx
      · exact h
  · rw [if_neg h]
    simp [List.mem_append]

lemma toFinset_listAdd (d : List Int) (v : Int) :
    (listAdd d v).toFinset = insert v d.toFinset := by
  ext x
  simp [mem_listAdd, or_comm]

lemma nodup_listAdd {d : List Int} (h : d.Nodup) (v : Int) :
    (listAdd d v).Nodup := by
  unfold listAdd
  split
  · exact h
  · next hv => simpa [List.nodup_append] using ⟨h, hv⟩

lemma listAdd_of_mem {d : List Int} {v : Int} (h : v ∈ d) :
    listAdd d v = d := by
  simp [listAdd, h]

lemma mem_foldl_listAdd {l init : List Int} {x : Int} :
    x ∈ l.foldl listAdd init ↔ x ∈ init ∨ x ∈ l := by
  induction l generalizing init with
  | nil => simp
  | cons hd tl ih =>
    simp only [List.foldl_cons, ih, mem_listAdd, List.mem_cons]
    tauto

lemma nodup_foldl_listAdd {l init : List Int} (h : init.Nodup) :
    (l.foldl listAdd init).Nodup := by
  induction l generalizing init with
  | nil => exact h
  | cons hd tl ih => exact ih (nodup_listAdd h hd)

lemma toFinset_foldl_listAdd (l init : List Int) :
    (l.foldl listAdd init).toFinset = init.toFinset ∪ l.toFinset := by
  ext x
  simp [mem_foldl_listAdd]

lemma foldl_listAdd_of_nodup {l : List Int} (hl : l.Nodup) :
    ∀ init : List Int, (∀ x ∈ l, x ∉ init) →
      l.foldl listAdd init = init ++ l := by
  induction l with
  | nil => intro init _; simp
  | cons hd tl ih =>
    intro init hdis
    have hni : hd ∉ init := hdis hd (List.mem_cons_self hd tl)
    simp only [List.foldl_cons, listAdd, if_neg hni]
    rw [ih hl.of_cons (init ++ [hd])]
    · simp
    · intro x hx
      simp only [List.mem_append, List.mem_singleton]
      rintro (hxi | rfl)
      · exact hdis x (List.mem_cons_of_mem hd hx) hxi
      · exact (List.nodup_cons.mp hl).1 hx

lemma foldl_listAdd_nil_of_nodup {l : List Int} (hl : l.Nodup) :
    l.foldl listAdd [] = l := by
  simpa using foldl_listAdd_of_nodup hl [] (by simp)

/-! ### Backend-level lemmas -/

lemma hash_foldl_add_data (l : List Int) (h : HashSetImpl) :
    (l.foldl HashSetImpl.add h).data = l.foldl listAdd h.data := by
  induction l generalizing h with
  | nil => rfl
  | cons hd tl ih => exact ih ⟨listAdd h.data hd⟩

lemma vec_foldl_add_data (l : List Int) (s : VectorSetImpl) :
    (l.foldl VectorSetImpl.add s).data = l.foldl listAdd s.data := by
  induction l generalizing s with
  | nil => rfl
  | cons hd tl ih => exact ih ⟨listAdd s.data hd⟩

lemma SetImpl.get_elements_add (si : SetImpl) (v : Int) :
    (si.add v).get_elements = listAdd si.get_elements v := by
  cases si <;> rfl

lemma SetImpl.get_elements_remove (si : SetImpl) (v : Int) :
    (si.remove v).get_elements
      = si.get_elements.filter (fun x => decide (x ≠ v)) := by
  cases si <;> rfl

lemma SetImpl.contains_iff (si : SetImpl) (v : Int) :
    si.contains v = true ↔ v ∈ si.get_elements := by
  cases si <;>
    simp [SetImpl.contains, VectorSetImpl.contains, HashSetImpl.contains,
      SetImpl.get_elements, VectorSetImpl.get_elements, HashSetImpl.get_elements]

lemma SetImpl.size_eq_length (si : SetImpl) :
    si.size = si.get_elements.length := by
  cases si <;> rfl

lemma SetImpl.elemsF_add (si : SetImpl) (v : Int) :
    (si.add v).elemsF = insert v si.elemsF := by
  simp [SetImpl.elemsF, SetImpl.get_elements_add, toFinset_listAdd]

lemma SetImpl.elemsF_remove (si : SetImpl) (v : Int) :
    (si.remove v).elemsF = si.elemsF.erase v := by
  ext x
  simp [SetImpl.elemsF, SetImpl.get_elements_remove, Finset.mem_erase, and_comm]

lemma SetImpl.Inv_add {si : SetImpl} (h : si.Inv) (v : Int) :
    (si.add v).Inv := by
  unfold SetImpl.Inv at *
  rw [SetImpl.get_elements_add]
  exact nodup_listAdd h v

lemma SetImpl.Inv_remove {si : SetImpl} (h : si.Inv) (v : Int) :
    (si.remove v).Inv := by
  unfold SetImpl.Inv at *
  rw [SetImpl.get_elements_remove]
  exact h.filter _

lemma SetImpl.size_eq_card {si : SetImpl} (h : si.Inv) :
    si.size = si.elemsF.card := by
  rw [SetImpl.size_eq_length, SetImpl.elemsF, List.toFinset_card_of_nodup h]

lemma SetImpl.mem_iff_mem_elemsF (si : SetImpl) (v : Int) :
    v ∈ si.get_elements ↔ v ∈ si.elemsF := by
  simp [SetImpl.elemsF]

/-! ### Union and intersection at the backend level -/

lemma SetImpl.get_elements_vec (s : VectorSetImpl) :
    (SetImpl.vec s).get_elements = s.data := rfl

lemma SetImpl.get_elements_hash (s : HashSetImpl) :
    (SetImpl.hash s).get_elements = s.data := rfl

lemma SetImpl.union_isVec (si other : SetImpl) :
    (si.union_with other).isVec = si.isVec := by
  cases si <;> rfl

lemma SetImpl.union_isHash (si other : SetImpl) :
    (si.union_with other).isHash = si.isHash := by
  cases si <;> rfl

lemma SetImpl.inter_isVec (si other : SetImpl) :
    (si.intersection_with other).isVec = si.isVec := by
  cases si <;> rfl

lemma SetImpl.inter_isHash (si other : SetImpl) :
    (si.intersection_with other).isHash = si.isHash := by
  cases si <;> rfl

lemma hash_inter_fold_data (other : SetImpl) (l : List Int) (h : HashSetImpl) :
    (l.foldl (fun acc v => if other.contains v then acc.add v else acc) h).data
      = (l.filter (fun v => other.contains v)).foldl listAdd h.data := by
  induction l generalizing h with
  | nil => rfl
  | cons hd tl ih =>
    simp only [List.foldl_cons, List.filter_cons]
    by_cases hc : other.contains hd = true
    · rw [if_pos hc, if_pos hc, List.foldl_cons]
      exact ih (h.add hd)
    · rw [if_neg hc, if_neg (by simpa using hc)]
      exact ih h

lemma SetImpl.mem_union (si other : SetImpl) (x : Int) :
    x ∈ (si.union_with other).get_elements
      ↔ x ∈ si.get_elements ∨ x ∈ other.get_elements := by
  cases si with
  | vec s =>
    simp only [SetImpl.union_with, SetImpl.get_elements_vec,
      VectorSetImpl.union_with, List.mem_append, List.mem_filter,
      VectorSetImpl.contains, Bool.not_eq_eq_eq_not, Bool.not_true,
      decide_eq_false_iff_not]
    constructor
    · rintro (hx | ⟨hx, _⟩)
      · exact Or.inl hx
      · exact Or.inr hx
    · rintro (hx | hx)
      · exact Or.inl hx
      · by_cases hs : x ∈ s.data
        · exact Or.inl hs
        · exact Or.inr ⟨hx, hs⟩
  | hash s =>
    simp only [SetImpl.union_with, SetImpl.get_elements_hash,
      HashSetImpl.union_with]
    rw [hash_foldl_add_data]
    exact Iff.trans mem_foldl_listAdd (by tauto)

lemma SetImpl.mem_inter (si other : SetImpl) (x : Int) :
    x ∈ (si.intersection_with other).get_elements
      ↔ x ∈ si.get_elements ∧ x ∈ other.get_elements := by
  cases si with
  | vec s =>
    simp only [SetImpl.intersection_with, SetImpl.get_elements_vec,
      VectorSetImpl.intersection_with, List.mem_filter]
    rw [SetImpl.contains_iff]
  | hash s =>
    simp only [SetImpl.intersection_with, SetImpl.get_elements_hash,
      HashSetImpl.intersection_with]
    rw [hash_inter_fold_data, mem_foldl_listAdd]
    simp only [List.not_mem_nil, false_or, List.mem_filter]
    rw [SetImpl.contains_iff]

lemma SetImpl.elemsF_union (si other : SetImpl) :
    (si.union_with other).elemsF = si.elemsF ∪ other.elemsF := by
  ext x
  simp [SetImpl.elemsF, SetImpl.mem_union]

lemma SetImpl.elemsF_inter (si other : SetImpl) :
    (si.intersection_with other).elemsF = si.elemsF ∩ other.elemsF := by
  ext x
  simp [SetImpl.elemsF, SetImpl.mem_inter]

lemma SetImpl.Inv_union {si other : SetImpl} (h1 : si.Inv) (h2 : other.Inv) :
    (si.union_with other).Inv := by
  cases si with
  | vec s =>
    unfold SetImpl.Inv at *
    rw [SetImpl.get_elements_vec] at h1
    simp only [SetImpl.union_with, VectorSetImpl.union_with,
      SetImpl.get_elements_vec]
    rw [List.nodup_append]
    refine ⟨h1, h2.filter _, ?_⟩
    intro x hx hy
    rcases List.mem_filter.mp hy with ⟨_, hyc⟩
    simp only [VectorSetImpl.contains, Bool.not_eq_eq_eq_not, Bool.not_true,
      decide_eq_false_iff_not] at hyc
    exact hyc hx
  | hash s =>
    unfold SetImpl.Inv at *
    rw [SetImpl.get_elements_hash] at h1
    simp only [SetImpl.union_with, HashSetImpl.union_with,
      SetImpl.get_elements_hash]
    rw [hash_foldl_add_data]
    exact nodup_foldl_listAdd h1

lemma SetImpl.Inv_inter {si : SetImpl} (other : SetImpl) (h1 : si.Inv) :
    (si.intersection_with other).Inv := by
  cases si with
  | vec s =>
    unfold SetImpl.Inv at *
    rw [SetImpl.get_elements_vec] at h1
    simp only [SetImpl.intersection_with, VectorSetImpl.intersection_with,
      SetImpl.get_elements_vec]
    exact h1.filter _
  | hash s =>
    unfold SetImpl.Inv at *
    simp only [SetImpl.intersection_with, HashSetImpl.intersection_with,
      SetImpl.get_elements_hash]
    rw [hash_inter_fold_data]
    exact nodup_foldl_listAdd (by simp)

lemma SetImpl.Inv_clone {si : SetImpl} (h : si.Inv) : si.clone.Inv := by
  cases si <;> exact h

lemma SetImpl.clone_get (si : SetImpl) :
    si.clone.get_elements = si.get_elements := by
  cases si <;> rfl

/-! ### Wrapper-level lemmas: migration, add, remove -/

lemma Set.switch_to_hash_get (s : Set) :
    s.switch_to_hash.impl.get_elements
      = s.impl.get_elements.foldl listAdd [] := by
  unfold Set.switch_to_hash
  rw [SetImpl.get_elements_hash, hash_foldl_add_data]

lemma Set.switch_to_vector_get (s : Set) :
    s.switch_to_vector.impl.get_elements
      = s.impl.get_elements.foldl listAdd [] := by
  unfold Set.switch_to_vector
  rw [SetImpl.get_elements_vec, vec_foldl_add_data]

lemma Set.switch_to_hash_elemsF (s : Set) :
    s.switch_to_hash.elemsF = s.elemsF := by
  unfold Set.elemsF SetImpl.elemsF
  rw [Set.switch_to_hash_get]
  ext x
  simp [mem_foldl_listAdd]

lemma Set.switch_to_vector_elemsF (s : Set) :
    s.switch_to_vector.elemsF = s.elemsF := by
  unfold Set.elemsF SetImpl.elemsF
  rw [Set.switch_to_vector_get]
  ext x
  simp [mem_foldl_listAdd]

lemma Set.switch_to_hash_Inv (s : Set) : s.switch_to_hash.Inv := by
  unfold Set.Inv SetImpl.Inv
  rw [Set.switch_to_hash_get]
  exact nodup_foldl_listAdd (by simp)

lemma Set.switch_to_vector_Inv (s : Set) : s.switch_to_vector.Inv := by
  unfold Set.Inv SetImpl.Inv
  rw [Set.switch_to_vector_get]
  exact nodup_foldl_listAdd (by simp)

lemma Set.switch_to_hash_get_of_Inv {s : Set} (h : s.Inv) :
    s.switch_to_hash.impl.get_elements = s.impl.get_elements := by
  rw [Set.switch_to_hash_get]
  exact foldl_listAdd_nil_of_nodup h

lemma Set.switch_to_vector_get_of_Inv {s : Set} (h : s.Inv) :
    s.switch_to_vector.impl.get_elements = s.impl.get_elements := by
  rw [Set.switch_to_vector_get]
  exact foldl_listAdd_nil_of_nodup h

lemma Set.add_elemsF (s : Set) (v : Int) :
    (s.add v).elemsF = insert v s.elemsF := by
  unfold Set.add
  by_cases hc : SWITCH_THRESHOLD ≤ s.impl.size ∧ s.impl.isVec = true
  · simp only [if_pos hc]
    show ((Set.mk ((s.switch_to_hash).impl.add v)).elemsF) = _
    unfold Set.elemsF
    rw [SetImpl.elemsF_add]
    rw [show (s.switch_to_hash).impl.elemsF = s.impl.elemsF from
      Set.switch_to_hash_elemsF s]
  · simp only [if_neg hc]
    show ((Set.mk (s.impl.add v)).elemsF) = _
    unfold Set.elemsF
    rw [SetImpl.elemsF_add]

lemma Set.add_Inv {s : Set} (h : s.Inv) (v : Int) : (s.add v).Inv := by
  unfold Set.add
  by_cases hc : SWITCH_THRESHOLD ≤ s.impl.size ∧ s.impl.isVec = true
  · simp only [if_pos hc]
    exact SetImpl.Inv_add (Set.switch_to_hash_Inv s) v
  · simp only [if_neg hc]
    exact SetImpl.Inv_add h v

lemma Set.remove_elemsF (s : Set) (v : Int) :
    (s.remove v).elemsF = s.elemsF.erase v := by
  unfold Set.remove
  by_cases hc : (SetImpl.remove s.impl v).size ≤ SWITCH_THRESHOLD ∧
      (SetImpl.remove s.impl v).isHash = true
  · simp only [if_pos hc]
    rw [show (Set.mk (s.impl.remove v)).switch_to_vector.elemsF
        = (Set.mk (s.impl.remove v)).elemsF from Set.switch_to_vector_elemsF _]
    unfold Set.elemsF
    exact SetImpl.elemsF_remove s.impl v
  · simp only [if_neg hc]
    unfold Set.elemsF
    exact SetImpl.elemsF_remove s.impl v

lemma Set.remove_Inv {s : Set} (h : s.Inv) (v : Int) : (s.remove v).Inv := by
  unfold Set.remove
  by_cases hc : (SetImpl.remove s.impl v).size ≤ SWITCH_THRESHOLD ∧
      (SetImpl.remove s.impl v).isHash = true
  · simp only [if_pos hc]
    exact Set.switch_to_vector_Inv _
  · simp only [if_neg hc]
    exact SetImpl.Inv_remove h v

lemma Set.size_card_of_Inv {s : Set} (h : s.Inv) : s.size = s.elemsF.card :=
  SetImpl.size_eq_card h

lemma Set.mem_contains_iff (s : Set) (v : Int) :
    s.contains v = true ↔ v ∈ s.elemsF := by
  unfold Set.contains Set.elemsF SetImpl.elemsF
  rw [SetImpl.contains_iff]
  simp

lemma Set.new_Inv : Set.new.Inv := by
  simp [Set.new, Set.Inv, SetImpl.Inv, SetImpl.get_elements,
    VectorSetImpl.get_elements]

lemma Set.new_elemsF : Set.new.elemsF = ∅ := rfl

/-! ### Variant evolution under add and remove -/

lemma Set.add_isHash (s : Set) (v : Int) :
    (s.add v).impl.isHash
      = (s.impl.isHash || decide (SWITCH_THRESHOLD ≤ s.impl.size)) := by
  unfold Set.add
  by_cases hc : SWITCH_THRESHOLD ≤ s.impl.size ∧ s.impl.isVec = true
  · simp only [if_pos hc]
    have h2 : decide (SWITCH_THRESHOLD ≤ s.impl.size) = true := by
      simpa using hc.1
    rw [h2]
    show (SetImpl.add (SetImpl.hash _) v).isHash = _
    simp [SetImpl.add, SetImpl.isHash]
  · simp only [if_neg hc]
    cases hsi : s.impl with
    | vec sv =>
      have hle : ¬ SWITCH_THRESHOLD ≤ (SetImpl.vec sv).size := by
        intro hle
        exact hc ⟨by rw [hsi]; exact hle, by rw [hsi]; rfl⟩
      simp [SetImpl.add, SetImpl.isHash, hle]
    | hash sh =>
      simp [SetImpl.add, SetImpl.isHash]

lemma Set.remove_isVec (s : Set) (v : Int) :
    (s.remove v).impl.isVec
      = (s.impl.isVec || decide ((s.impl.remove v).size ≤ SWITCH_THRESHOLD)) := by
  unfold Set.remove
  by_cases hc : (SetImpl.remove s.impl v).size ≤ SWITCH_THRESHOLD ∧
      (SetImpl.remove s.impl v).isHash = true
  · simp only [if_pos hc]
    have h2 : decide ((s.impl.remove v).size ≤ SWITCH_THRESHOLD) = true := by
      simpa using hc.1
    rw [h2]
    show (Set.switch_to_vector _).impl.isVec = _
    simp [Set.switch_to_vector, SetImpl.isVec]
  · simp only [if_neg hc]
    cases hsi : s.impl with
    | vec sv =>
      simp [SetImpl.remove, SetImpl.isVec]
    | hash sh =>
      have hgt : ¬ ((SetImpl.hash sh).remove v).size ≤ SWITCH_THRESHOLD := by
        intro hle
        exact hc ⟨by rw [hsi]; exact hle, by rw [hsi]; rfl⟩
      simp only [SetImpl.remove, SetImpl.isVec] at hgt ⊢
      simp [Nat.lt_iff_add_one_le, Nat.not_le] at hgt ⊢
      exact hgt

/-! ### Operation sequences and the reference model -/

lemma Set.step_Inv {s : Set} (h : s.Inv) (op : Op) : (s.step op).Inv := by
  cases op with
  | add v => exact Set.add_Inv h v
  | remove v => exact Set.remove_Inv h v

lemma Set.step_elemsF (s : Set) (op : Op) :
    (s.step op).elemsF = modelStep s.elemsF op := by
  cases op with
  | add v => exact Set.add_elemsF s v
  | remove v => exact Set.remove_elemsF s v

lemma Set.run_Inv {s : Set} (h : s.Inv) (ops : List Op) : (s.run ops).Inv := by
  induction ops generalizing s with
  | nil => exact h
  | cons op tl ih => exact ih (Set.step_Inv h op)

lemma Set.run_elemsF (ops : List Op) (s : Set) :
    (s.run ops).elemsF = modelRun s.elemsF ops := by
  induction ops generalizing s with
  | nil => rfl
  | cons op tl ih =>
    show ((s.step op).run tl).elemsF = modelRun (modelStep s.elemsF op) tl
    rw [ih, Set.step_elemsF]

/-! ### Claim theorems -/

/-- Claim C1, counterexample: after inserting the 20 elements `0..19`
(so immediately after the insertion of element index 19, making size
20), the set is still Linear-active, not Hashed-active as claimed: the
migration check in `Set::add` fires before the insert, at which point
the size was only 19. -/
theorem C1_counterexample :
    (Set.new.addAll (intRange 20)).size = 20 ∧
    (Set.new.addAll (intRange 20)).impl.isHash = false ∧
    (Set.new.addAll (intRange 20)).impl.isVec = true := by decide

/-- Claim C1, amended: inserting `0..24` one at a time into an empty
set crosses the threshold exactly once, but the migration happens one
insertion later than claimed: after each of the first 20 insertions
(indices 0..19) the set is Linear-active, and from the insertion of
element index 20 (the 21st element, making size 21) onwards it is
Hashed-active; at each of the two boundary states all elements inserted
so far remain present. -/
theorem C1_amended :
    (∀ k, k < 20 → (Set.new.addAll (intRange (k+1))).impl.isVec = true) ∧
    (Set.new.addAll (intRange 20)).size = 20 ∧
    (∀ k, k < 25 → 20 ≤ k →
      (Set.new.addAll (intRange (k+1))).impl.isHash = true) ∧
    (Set.new.addAll (intRange 21)).size = 21 ∧
    (∀ v : Nat, v < 20 → (Set.new.addAll (intRange 20)).contains (v : Int) = true) ∧
    (∀ v : Nat, v < 21 → (Set.new.addAll (intRange 21)).contains (v : Int) = true) := by
  decide

/-- Claim C1 witness: the amended claim evaluated at the boundary
insertions. -/
theorem C1_amended_witness :
    (Set.new.addAll (intRange 20)).impl.isVec = true ∧
    (Set.new.addAll (intRange 21)).impl.isHash = true ∧
    (Set.new.addAll (intRange 21)).contains 19 = true :=
  ⟨C1_amended.1 19 (by decide), C1_amended.2.2.1 20 (by decide) (by decide),
   C1_amended.2.2.2.2.2 19 (by decide)⟩

/-- Left operand of the C2 counterexample: the 19 elements `0..18`
added through the public API, leaving a Linear-active set of size 19. -/
def cexA : Set := Set.new.addAll (intRange 19)

/-- Right operand of the C2 counterexample: the 10 elements `100..109`
added through the public API, leaving a Linear-active set of size 10. -/
def cexB : Set := Set.new.addAll ((List.range 10).map (fun k => ((100 + k : Nat) : Int)))

/-- Claim C2, counterexample: `Set::union_with` applies no switching
policy to the set it returns. The union of two Linear-active sets of
sizes 19 and 10 with disjoint elements is a Linear-active set of size
29, strictly above the threshold — a state the policy would have
migrated to Hashed. -/
theorem C2_counterexample :
    (cexA.union_with cexB).impl.isVec = true ∧
    SWITCH_THRESHOLD < (cexA.union_with cexB).size := by decide

/-- Claim C2, amended: `union_with` and `intersection_with` delegate to
the active representations and wrap the resulting representation in a
new AdaptiveSet without evaluating the switching policy on it: the
returned set's active variant is always the left operand's variant, and
its elements are the set union (respectively intersection) of the
operands' elements, even when its size is on the wrong side of the
threshold for that variant. -/
theorem C2_amended (a b : Set) :
    (a.union_with b).impl.isVec = a.impl.isVec ∧
    (a.union_with b).impl.isHash = a.impl.isHash ∧
    (a.intersection_with b).impl.isVec = a.impl.isVec ∧
    (a.intersection_with b).impl.isHash = a.impl.isHash ∧
    (a.union_with b).elemsF = a.elemsF ∪ b.elemsF ∧
    (a.intersection_with b).elemsF = a.elemsF ∩ b.elemsF := by
  refine ⟨SetImpl.union_isVec a.impl b.impl, SetImpl.union_isHash a.impl b.impl,
    SetImpl.inter_isVec a.impl b.impl, SetImpl.inter_isHash a.impl b.impl, ?_, ?_⟩
  · exact SetImpl.elemsF_union a.impl b.impl
  · exact SetImpl.elemsF_inter a.impl b.impl

/-- The set `A = {0..24}` of claim C3, built through the public API;
it ends Hashed-active with size 25. -/
def setA : Set := Set.new.addAll (intRange 25)

/-- The set `B = {10, 20, 25, 30}` of claim C3, built through the
public API; it ends Linear-active with size 4. -/
def setB : Set := Set.new.addAll [10, 20, 25, 30]

set_option maxRecDepth 4000 in
/-- Claim C3, counterexample: `A.union_with(B)` has size 27, not 26:
`A = {0..24}` has 25 elements and `B` contributes the two new elements
25 and 30. -/
theorem C3_counterexample :
    ¬ (setA.union_with setB).size = 26 ∧
    (setA.union_with setB).size = 27 := by decide

set_option maxRecDepth 4000 in
/-- Claim C3, amended: for `A = {0..24}` (Hashed-active, size 25) and
`B = {10,20,25,30}` (Linear-active, size 4), `A.union_with(B)` has size
27 and contains every element of both, and `A.intersection_with(B)` has
size 2 and its element set equals `{10, 20}`. -/
theorem C3_amended :
    setA.impl.isHash = true ∧ setA.size = 25 ∧
    setB.impl.isVec = true ∧ setB.size = 4 ∧
    (setA.union_with setB).size = 27 ∧
    setA.elemsF ∪ setB.elemsF ⊆ (setA.union_with setB).elemsF ∧
    (setA.intersection_with setB).size = 2 ∧
    (setA.intersection_with setB).elemsF = {10, 20} := by decide

/-- Claim C4: after any finite sequence of `add`/`remove` operations on
a newly created set, `contains v` agrees with membership of `v` in the
reference mathematical set obtained by interpreting `add` as insertion
and `remove` as deletion, and `size` equals that reference set's
cardinality. -/
theorem C4_model_correspondence (ops : List Op) (v : Int) :
    ((Set.new.run ops).contains v = true ↔ v ∈ modelRun ∅ ops) ∧
    (Set.new.run ops).size = (modelRun ∅ ops).card := by
  have hrun : (Set.new.run ops).elemsF = modelRun ∅ ops := by
    have h := Set.run_elemsF ops Set.new
    rwa [Set.new_elemsF] at h
  constructor
  · rw [Set.mem_contains_iff, hrun]
  · rw [Set.size_card_of_Inv (Set.run_Inv Set.new_Inv ops), hrun]

/-- Claim C5: `Set::remove` removes from the active representation
first and then migrates to Linear when the Hashed representation is
active and the resulting size is at most the threshold; in particular,
removing two elements one at a time from a Hashed-active set of size 21
gives a Linear-active set of size 20 and then of size 19, each time with
exactly the remaining elements preserved. -/
theorem C5_down_migration (s : Set) (v v1 v2 : Int) (hInv : s.Inv) :
    ((s.remove v).elemsF = s.elemsF.erase v ∧
      ((s.impl.remove v).isHash = true →
        (s.impl.remove v).size ≤ SWITCH_THRESHOLD →
        (s.remove v).impl.isVec = true)) ∧
    (s.impl.isHash = true → s.size = 21 →
      v1 ∈ s.elemsF → v2 ∈ s.elemsF.erase v1 →
      ((s.remove v1).impl.isVec = true ∧
       (s.remove v1).elemsF = s.elemsF.erase v1 ∧
       (∀ x : Int, (s.remove v1).contains x = true ↔ x ∈ s.elemsF.erase v1) ∧
       (s.remove v1).size = 20 ∧
       ((s.remove v1).remove v2).impl.isVec = true ∧
       ((s.remove v1).remove v2).elemsF = (s.elemsF.erase v1).erase v2 ∧
       ((s.remove v1).remove v2).size = 19)) := by
  constructor
  · refine ⟨Set.remove_elemsF s v, ?_⟩
    intro _ hle
    rw [Set.remove_isVec]
    simp [hle]
  · intro _ h21 hv1 hv2
    have hcard : s.elemsF.card = 21 := by
      rw [← Set.size_card_of_Inv hInv]; exact h21
    have hecard : (s.elemsF.erase v1).card = 20 := by
      rw [Finset.card_erase_of_mem hv1, hcard]
    have himplsize : (s.impl.remove v1).size = 20 := by
      rw [SetImpl.size_eq_card (SetImpl.Inv_remove hInv v1), SetImpl.elemsF_remove]
      exact hecard
    have hisVec1 : (s.remove v1).impl.isVec = true := by
      rw [Set.remove_isVec]
      have : (s.impl.remove v1).size ≤ SWITCH_THRESHOLD := by
        rw [himplsize]; exact Nat.le_refl 20
      simp [this]
    have helems1 : (s.remove v1).elemsF = s.elemsF.erase v1 :=
      Set.remove_elemsF s v1
    have hInv1 : (s.remove v1).Inv := Set.remove_Inv hInv v1
    have hsize1 : (s.remove v1).size = 20 := by
      rw [Set.size_card_of_Inv hInv1, helems1]; exact hecard
    have hisVec2 : ((s.remove v1).remove v2).impl.isVec = true := by
      rw [Set.remove_isVec, hisVec1]; rfl
    have helems2 : ((s.remove v1).remove v2).elemsF
        = (s.elemsF.erase v1).erase v2 := by
      rw [Set.remove_elemsF, helems1]
    have hsize2 : ((s.remove v1).remove v2).size = 19 := by
      rw [Set.size_card_of_Inv (Set.remove_Inv hInv1 v2), helems2,
        Finset.card_erase_of_mem hv2, hecard]
    refine ⟨hisVec1, helems1, ?_, hsize1, hisVec2, helems2, hsize2⟩
    intro x
    rw [Set.mem_contains_iff, helems1]

/-- Claim C5 witness: the Hashed-active set `{0..20}` of size 21, with
the elements 0 and then 1 removed. -/
theorem C5_down_migration_witness :
    ((⟨.hash ⟨intRange 21⟩⟩ : Set).remove 0).impl.isVec = true ∧
    (((⟨.hash ⟨intRange 21⟩⟩ : Set).remove 0).remove 1).size = 19 :=
  ⟨((C5_down_migration ⟨.hash ⟨intRange 21⟩⟩ 0 0 1
        (by show (intRange 21).Nodup; decide)).2
      (by decide) (by decide) (by decide) (by decide)).1,
   ((C5_down_migration ⟨.hash ⟨intRange 21⟩⟩ 0 0 1
        (by show (intRange 21).Nodup; decide)).2
      (by decide) (by decide) (by decide) (by decide)).2.2.2.2.2.2⟩

/-- Claim C6: `add` and `remove` are idempotent on both representation
variants (literally, on the representation state) and on the wrapper:
adding the same value twice yields the same element set and size as
adding it once, and removing an absent value leaves the element set and
size unchanged. -/
theorem C6_idempotence (si : SetImpl) (s : Set) (v : Int) :
    ((si.add v).add v = si.add v) ∧
    (si.contains v = false → si.remove v = si) ∧
    (s.Inv →
      (((s.add v).add v).elemsF = (s.add v).elemsF ∧
       ((s.add v).add v).size = (s.add v).size ∧
       (s.contains v = false →
         (s.remove v).elemsF = s.elemsF ∧ (s.remove v).size = s.size))) := by
  refine ⟨?_, ?_, ?_⟩
  · cases si with
    | vec s0 =>
      show SetImpl.vec ((s0.add v).add v) = SetImpl.vec (s0.add v)
      unfold VectorSetImpl.add
      rw [listAdd_of_mem (mem_listAdd.mpr (Or.inr rfl))]
    | hash s0 =>
      show SetImpl.hash ((s0.add v).add v) = SetImpl.hash (s0.add v)
      unfold HashSetImpl.add
      rw [listAdd_of_mem (mem_listAdd.mpr (Or.inr rfl))]
  · intro hcf
    cases si with
    | vec s0 =>
      have hnm : v ∉ s0.data := by
        simpa [SetImpl.contains, VectorSetImpl.contains] using hcf
      show SetImpl.vec (s0.remove v) = SetImpl.vec s0
      unfold VectorSetImpl.remove
      rw [List.filter_eq_self.mpr]
      intro x hx
      simp only [decide_eq_true_iff]
      exact fun hxv => hnm (hxv ▸ hx)
    | hash s0 =>
      have hnm : v ∉ s0.data := by
        simpa [SetImpl.contains, HashSetImpl.contains] using hcf
      show SetImpl.hash (s0.remove v) = SetImpl.hash s0
      unfold HashSetImpl.remove
      rw [List.filter_eq_self.mpr]
      intro x hx
      simp only [decide_eq_true_iff]
      exact fun hxv => hnm (hxv ▸ hx)
  · intro hInv
    have helems : ((s.add v).add v).elemsF = (s.add v).elemsF := by
      rw [Set.add_elemsF, Set.add_elemsF, Finset.insert_idem]
    refine ⟨helems, ?_, ?_⟩
    · rw [Set.size_card_of_Inv (Set.add_Inv (Set.add_Inv hInv v) v),
        Set.size_card_of_Inv (Set.add_Inv hInv v), helems]
    · intro hcf
      have hnm : v ∉ s.elemsF := by
        intro hm
        have := (Set.mem_contains_iff s v).mpr hm
        rw [hcf] at this
        exact Bool.false_ne_true this
      have he : (s.remove v).elemsF = s.elemsF := by
        rw [Set.remove_elemsF, Finset.erase_eq_of_not_mem hnm]
      refine ⟨he, ?_⟩
      rw [Set.size_card_of_Inv (Set.remove_Inv hInv v), he, Set.size_card_of_Inv hInv]

/-- Claim C6 witness: idempotence evaluated on the empty vector
representation and on a freshly created set. -/
theorem C6_idempotence_witness :
    (((SetImpl.vec ⟨[]⟩).add 0).add 0 = (SetImpl.vec ⟨[]⟩).add 0) ∧
    ((SetImpl.vec ⟨[]⟩).remove 0 = SetImpl.vec ⟨[]⟩) ∧
    ((Set.new.add 0).add 0).elemsF = (Set.new.add 0).elemsF ∧
    (Set.new.remove 7).elemsF = Set.new.elemsF :=
  ⟨(C6_idempotence (.vec ⟨[]⟩) Set.new 0).1,
   (C6_idempotence (.vec ⟨[]⟩) Set.new 0).2.1 (by decide),
   ((C6_idempotence (.vec ⟨[]⟩) Set.new 0).2.2 Set.new_Inv).1,
   (((C6_idempotence (.vec ⟨[]⟩) Set.new 7).2.2 Set.new_Inv).2.2 (by decide)).1⟩

/-- Claim C7: for every pair of representations of any variant
combination, `union_with` and `intersection_with` return a
representation of the left operand's variant whose element set is the
set union (respectively intersection), and the result depends on the
right operand only through its abstract operations: `union_with` only
through `get_elements`, `intersection_with` only through `contains`. -/
theorem C7_cross_variant_algebra (L R R2 : SetImpl) :
    (L.union_with R).isVec = L.isVec ∧
    (L.union_with R).isHash = L.isHash ∧
    (L.intersection_with R).isVec = L.isVec ∧
    (L.intersection_with R).isHash = L.isHash ∧
    (L.union_with R).elemsF = L.elemsF ∪ R.elemsF ∧
    (L.intersection_with R).elemsF = L.elemsF ∩ R.elemsF ∧
    (R.get_elements = R2.get_elements → L.union_with R = L.union_with R2) ∧
    ((∀ x, R.contains x = R2.contains x) →
      L.intersection_with R = L.intersection_with R2) := by
  refine ⟨SetImpl.union_isVec L R, SetImpl.union_isHash L R,
    SetImpl.inter_isVec L R, SetImpl.inter_isHash L R,
    SetImpl.elemsF_union L R, SetImpl.elemsF_inter L R, ?_, ?_⟩
  · intro h
    cases L with
    | vec s0 =>
      simp only [SetImpl.union_with, VectorSetImpl.union_with, h]
    | hash s0 =>
      simp only [SetImpl.union_with, HashSetImpl.union_with, h]
  · intro h
    cases L with
    | vec s0 =>
      simp only [SetImpl.intersection_with, VectorSetImpl.intersection_with, h]
    | hash s0 =>
      simp only [SetImpl.intersection_with, HashSetImpl.intersection_with, h]

/-- Claim C7 witness: cross-variant union and intersection of a vector
representation with a hash representation, and the extensionality parts
discharged on equal representations. -/
theorem C7_cross_variant_algebra_witness :
    ((SetImpl.vec ⟨[1, 2]⟩).union_with (SetImpl.hash ⟨[2, 3]⟩)).elemsF
      = (SetImpl.vec ⟨[1, 2]⟩).elemsF ∪ (SetImpl.hash ⟨[2, 3]⟩).elemsF ∧
    (SetImpl.vec ⟨[1, 2]⟩).union_with (SetImpl.hash ⟨[2, 3]⟩)
      = (SetImpl.vec ⟨[1, 2]⟩).union_with (SetImpl.hash ⟨[2, 3]⟩) ∧
    (SetImpl.vec ⟨[1, 2]⟩).intersection_with (SetImpl.hash ⟨[2, 3]⟩)
      = (SetImpl.vec ⟨[1, 2]⟩).intersection_with (SetImpl.hash ⟨[2, 3]⟩) :=
  ⟨(C7_cross_variant_algebra (.vec ⟨[1, 2]⟩) (.hash ⟨[2, 3]⟩) (.hash ⟨[2, 3]⟩)).2.2.2.2.1,
   (C7_cross_variant_algebra (.vec ⟨[1, 2]⟩) (.hash ⟨[2, 3]⟩) (.hash ⟨[2, 3]⟩)).2.2.2.2.2.2.1 rfl,
   (C7_cross_variant_algebra (.vec ⟨[1, 2]⟩) (.hash ⟨[2, 3]⟩) (.hash ⟨[2, 3]⟩)).2.2.2.2.2.2.2
     (fun _ => rfl)⟩

/-- Claim C8: on inputs satisfying the no-duplicates invariant, every
operation of both representation variants (add, remove, clone, union,
intersection) and both wrapper migrations preserve it, and `size`
equals the number of distinct elements. -/
theorem C8_no_duplicates (si other : SetImpl) (s : Set) (v : Int) :
    (si.Inv → ((si.add v).Inv ∧ (si.remove v).Inv ∧ si.clone.Inv ∧
      (si.intersection_with other).Inv ∧ si.size = si.elemsF.card)) ∧
    (si.Inv → other.Inv → (si.union_with other).Inv) ∧
    s.switch_to_hash.Inv ∧
    s.switch_to_vector.Inv ∧
    (s.Inv → (s.add v).Inv ∧ (s.remove v).Inv) := by
  refine ⟨?_, ?_, Set.switch_to_hash_Inv s, Set.switch_to_vector_Inv s, ?_⟩
  · intro h
    exact ⟨SetImpl.Inv_add h v, SetImpl.Inv_remove h v, SetImpl.Inv_clone h,
      SetImpl.Inv_inter other h, SetImpl.size_eq_card h⟩
  · intro h1 h2
    exact SetImpl.Inv_union h1 h2
  · intro h
    exact ⟨Set.add_Inv h v, Set.remove_Inv h v⟩

/-- Claim C8 witness: the invariant checked through one concrete add
and one concrete cross-variant union. -/
theorem C8_no_duplicates_witness :
    ((SetImpl.vec ⟨[5, 6]⟩).add 7).Inv ∧
    ((SetImpl.vec ⟨[5, 6]⟩).union_with (SetImpl.hash ⟨[6, 9]⟩)).Inv ∧
    (SetImpl.vec ⟨[5, 6]⟩).size = (SetImpl.vec ⟨[5, 6]⟩).elemsF.card :=
  ⟨((C8_no_duplicates (.vec ⟨[5, 6]⟩) (.hash ⟨[6, 9]⟩) Set.new 7).1
      (by show ([5, 6] : List Int).Nodup; decide)).1,
   (C8_no_duplicates (.vec ⟨[5, 6]⟩) (.hash ⟨[6, 9]⟩) Set.new 7).2.1
      (by show ([5, 6] : List Int).Nodup; decide)
      (by show ([6, 9] : List Int).Nodup; decide),
   ((C8_no_duplicates (.vec ⟨[5, 6]⟩) (.hash ⟨[6, 9]⟩) Set.new 7).1
      (by show ([5, 6] : List Int).Nodup; decide)).2.2.2.2⟩

/-- Claim C9: `Set::union_with` and `Set::intersection_with` are const
on both operands: each call returns a freshly constructed AdaptiveSet
holding the delegated representation result, and the operand objects
after the call — the second and third components of the call model —
are exactly the operands before it, so their element sets, sizes, and
active variants are unchanged. -/
theorem C9_operands_unchanged (a b : Set) :
    ((a.union_call b).1 = a.union_with b ∧
     (a.union_call b).2.1 = a ∧ (a.union_call b).2.2 = b ∧
     (a.union_call b).2.1.elemsF = a.elemsF ∧
     (a.union_call b).2.1.size = a.size ∧
     (a.union_call b).2.1.impl.isVec = a.impl.isVec ∧
     (a.union_call b).2.2.elemsF = b.elemsF ∧
     (a.union_call b).2.2.size = b.size ∧
     (a.union_call b).2.2.impl.isVec = b.impl.isVec) ∧
    ((a.intersection_call b).1 = a.intersection_with b ∧
     (a.intersection_call b).2.1 = a ∧
     (a.intersection_call b).2.2 = b) :=
  ⟨⟨rfl, rfl, rfl, rfl, rfl, rfl, rfl, rfl, rfl⟩, rfl, rfl, rfl⟩

/-- Claim C10: the switching policy is evaluated even when the
operation leaves the element set unchanged: removing an absent value
from a Hashed-active set of size at most 20 still migrates it to
Linear-active, and adding an already-present value to a Linear-active
set of size at least 20 still migrates it to Hashed-active; in both
cases all elements and the size are preserved. -/
theorem C10_policy_on_noop (s : Set) (v : Int) (hInv : s.Inv) :
    (s.impl.isHash = true → s.size ≤ SWITCH_THRESHOLD →
      s.contains v = false →
      ((s.remove v).impl.isVec = true ∧ (s.remove v).elemsF = s.elemsF ∧
       (s.remove v).size = s.size)) ∧
    (s.impl.isVec = true → SWITCH_THRESHOLD ≤ s.size →
      s.contains v = true →
      ((s.add v).impl.isHash = true ∧ (s.add v).elemsF = s.elemsF ∧
       (s.add v).size = s.size)) := by
  constructor
  · intro _ hle hcf
    have hnm : v ∉ s.elemsF := by
      intro hm
      have := (Set.mem_contains_iff s v).mpr hm
      rw [hcf] at this
      exact Bool.false_ne_true this
    have he : (s.remove v).elemsF = s.elemsF := by
      rw [Set.remove_elemsF, Finset.erase_eq_of_not_mem hnm]
    have hrs : (s.impl.remove v).size ≤ SWITCH_THRESHOLD := by
      have h1 : (s.impl.remove v).size = (s.impl.elemsF.erase v).card := by
        rw [SetImpl.size_eq_card (SetImpl.Inv_remove hInv v),
          SetImpl.elemsF_remove]
      have h2 : s.impl.elemsF.erase v = s.impl.elemsF :=
        Finset.erase_eq_of_not_mem hnm
      have h3 : s.impl.elemsF.card = s.size := (Set.size_card_of_Inv hInv).symm
      rw [h1, h2, h3]
      exact hle
    refine ⟨?_, he, ?_⟩
    · rw [Set.remove_isVec]
      simp [hrs]
    · rw [Set.size_card_of_Inv (Set.remove_Inv hInv v), he, Set.size_card_of_Inv hInv]
  · intro _ hge hct
    have hm : v ∈ s.elemsF := (Set.mem_contains_iff s v).mp hct
    have he : (s.add v).elemsF = s.elemsF := by
      rw [Set.add_elemsF, Finset.insert_eq_self.mpr hm]
    refine ⟨?_, he, ?_⟩
    · rw [Set.add_isHash]
      have : decide (SWITCH_THRESHOLD ≤ s.impl.size) = true := by
        simpa using hge
      rw [this, Bool.or_true]
    · rw [Set.size_card_of_Inv (Set.add_Inv hInv v), he, Set.size_card_of_Inv hInv]

/-- Claim C10 witness: removing the absent value 100 from the
Hashed-active set `{0..4}` migrates it to Linear-active, and adding the
already-present value 0 to the Linear-active set `{0..19}` migrates it
to Hashed-active. -/
theorem C10_policy_on_noop_witness :
    ((⟨.hash ⟨intRange 5⟩⟩ : Set).remove 100).impl.isVec = true ∧
    ((⟨.vec ⟨intRange 20⟩⟩ : Set).add 0).impl.isHash = true :=
  ⟨((C10_policy_on_noop ⟨.hash ⟨intRange 5⟩⟩ 100
        (by show (intRange 5).Nodup; decide)).1
      (by decide) (by decide) (by decide)).1,
   ((C10_policy_on_noop ⟨.vec ⟨intRange 20⟩⟩ 0
        (by show (intRange 20).Nodup; decide)).2
      (by decide) (by decide) (by decide)).1⟩

end Task7
